import Mathlib

/-!
Verification of the bitstamp WebSocket order-book state machine
(`handleOrderBook`, `handleDelta`, `handleBidAsks`, `getCacheIndex`,
`handleOrderBookSubscription`, `handleSubscriptionStatus`, `handleMessage`)
as a shallow embedding in Lean.

Prices and sizes are embedded as exact rationals (the source carries them as
decimal strings and compares them exactly); nonces (`microtimestamp`) as
natural numbers.
-/

namespace Bitstamp

/-- One raw delta message from the `diff_order_book_*` feed: the `data`
object carrying `timestamp` (seconds, optional), `microtimestamp` (the
nonce), and normalized `bids` / `asks` price-level entries
`(price, size)`. -/
structure Delta where
  timestamp : Option Nat
  microtimestamp : Nat
  bids : List (ℚ × ℚ)
  asks : List (ℚ × ℚ)
deriving DecidableEq

/-- The per-symbol stored order book: two sides, metadata, and the `cache`
of deltas buffered while no snapshot has been applied (`nonce = none`). -/
structure OrderBook where
  bids : List (ℚ × ℚ)
  asks : List (ℚ × ℚ)
  nonce : Option Nat
  timestamp : Option Nat
  datetime : Option Nat
  cache : List Delta
deriving DecidableEq

/-- Outcome of one `handleOrderBook` call: the delta was buffered (with the
flag telling whether a snapshot fetch was spawned on this call), dropped as
stale, or applied and resolved to consumers. -/
inductive HandleResult where
  | buffered (spawn : Bool)
  | stale
  | resolved
deriving DecidableEq

/-- Modelled from the spec: `PriceLevelSide.upsert` for the bid side
(the base-class `OrderBookSide.storeArray`, not under src/). Keeps levels
strictly descending by price; size `0` deletes the level at that price and
is a no-op when the price is absent. -/
def storeBid : List (ℚ × ℚ) → ℚ → ℚ → List (ℚ × ℚ)
  | [], p, s => if s = 0 then [] else [(p, s)]
  | (q, t) :: rest, p, s =>
    if q < p then (if s = 0 then (q, t) :: rest else (p, s) :: (q, t) :: rest)
    else if p = q then (if s = 0 then rest else (p, s) :: rest)
    else (q, t) :: storeBid rest p s

/-- Modelled from the spec: `PriceLevelSide.upsert` for the ask side
(the base-class `OrderBookSide.storeArray`, not under src/). Keeps levels
strictly ascending by price; size `0` deletes the level at that price and
is a no-op when the price is absent. -/
def storeAsk : List (ℚ × ℚ) → ℚ → ℚ → List (ℚ × ℚ)
  | [], p, s => if s = 0 then [] else [(p, s)]
  | (q, t) :: rest, p, s =>
    if p < q then (if s = 0 then (q, t) :: rest else (p, s) :: (q, t) :: rest)
    else if p = q then (if s = 0 then rest else (p, s) :: rest)
    else (q, t) :: storeAsk rest p s

/-- `handleBidAsks(bookSide, bidAsks)` for the bid side: parse each entry
and store it into the side, in the order given by the feed. -/
def handleBidAsksB (side : List (ℚ × ℚ)) (entries : List (ℚ × ℚ)) : List (ℚ × ℚ) :=
  entries.foldl (fun s e => storeBid s e.1 e.2) side

/-- `handleBidAsks(bookSide, bidAsks)` for the ask side. -/
def handleBidAsksA (side : List (ℚ × ℚ)) (entries : List (ℚ × ℚ)) : List (ℚ × ℚ) :=
  entries.foldl (fun s e => storeAsk s e.1 e.2) side

/-- `handleDelta(orderbook, delta)`: set `timestamp` (seconds scaled to
milliseconds by `safeTimestamp`), `datetime` (the same instant, formatted
by `iso8601`; embedded as the millisecond value), set `nonce` to the
delta's `microtimestamp`, and store every bid and ask entry. -/
def handleDelta (book : OrderBook) (delta : Delta) : OrderBook :=
  { book with
    timestamp := delta.timestamp.map (· * 1000)
    datetime := delta.timestamp.map (· * 1000)
    nonce := some delta.microtimestamp
    bids := handleBidAsksB book.bids delta.bids
    asks := handleBidAsksA book.asks delta.asks }

/-- `handleOrderBook(client, message)`, restricted to the stored book of the
message's market. While `nonce` is undefined the delta is cached, and a
snapshot load is spawned exactly on the call that finds the cache length
equal to `snapshotDelay` (the check precedes the push). With a live nonce,
a delta whose `microtimestamp` is not strictly greater is dropped;
otherwise `handleDelta` applies it and the book resolves to consumers. -/
def handleOrderBook (snapshotDelay : Nat) (book : OrderBook) (delta : Delta) :
    OrderBook × HandleResult :=
  match book.nonce with
  | none =>
      ({ book with cache := book.cache ++ [delta] },
        .buffered (book.cache.length == snapshotDelay))
  | some n =>
      if delta.microtimestamp ≤ n then (book, .stale)
      else (handleDelta book delta, .resolved)

/-- The scan loop of `getCacheIndex`: returns `i + 1` for the first index
`i` whose delta has `microtimestamp` equal to `nonce`, and the length of
the list when no delta matches. -/
def cacheIndexLoop (nonce : Nat) : List Delta → Nat
  | [] => 0
  | d :: rest => if d.microtimestamp = nonce then 1 else 1 + cacheIndexLoop nonce rest

/-- `getCacheIndex(orderbook, deltas)` with the book's nonce passed
explicitly: `-1` when the snapshot nonce is below the first buffered
delta's nonce, otherwise the index after the first delta whose nonce
equals the snapshot nonce (the length when none matches). -/
def getCacheIndex (nonce : Nat) (deltas : List Delta) : Int :=
  match deltas with
  | [] => 0
  | first :: _ =>
    if nonce < first.microtimestamp then -1
    else (cacheIndexLoop nonce deltas : Int)

/-- Modelled from the spec: `reconcile(snapshotNonce)` — the base-class
`loadOrderBook` (not under src/) calls `getCacheIndex` and, unless it
returns the failure value `-1`, replays the cached deltas from that index
on. `none` is the `UnrecoverableGap` outcome. -/
def reconcile (nonce : Nat) (deltas : List Delta) : Option (List Delta) :=
  let i := getCacheIndex nonce deltas
  if i = -1 then none else some (deltas.drop i.toNat)

/-- Modelled from the spec: `this.orderBook()` (base class, not under
src/) — a fresh empty book: both sides empty, no nonce, no timestamp, an
empty delta cache. -/
def freshOrderBook : OrderBook :=
  { bids := [], asks := [], nonce := none, timestamp := none,
    datetime := none, cache := [] }

/-- Best (highest) bid price of a book, when the bid side is non-empty. -/
def bestBid (book : OrderBook) : Option ℚ :=
  book.bids.head?.map Prod.fst

/-- Best (lowest) ask price of a book, when the ask side is non-empty. -/
def bestAsk (book : OrderBook) : Option ℚ :=
  book.asks.head?.map Prod.fst

/-- The nonces of the successive resolved book views produced by feeding a
list of deltas through `handleOrderBook` one after the other (only the
calls that reach `client.resolve` contribute). -/
def resolvedNonces (sd : Nat) (book : OrderBook) : List Delta → List Nat
  | [] => []
  | d :: ds =>
    let r := handleOrderBook sd book d
    if r.2 = .resolved then d.microtimestamp :: resolvedNonces sd r.1 ds
    else resolvedNonces sd r.1 ds

/-- The snapshot-spawn flags of the successive buffering calls produced by
feeding a list of deltas through `handleOrderBook`: one boolean per call
that buffered its delta, true when that call spawned `loadOrderBook`. -/
def spawnFlags (sd : Nat) (book : OrderBook) : List Delta → List Bool
  | [] => []
  | d :: ds =>
    let r := handleOrderBook sd book d
    match r.2 with
    | .buffered sp => sp :: spawnFlags sd r.1 ds
    | _ => spawnFlags sd r.1 ds

/-- Feed `n` copies of the same delta through `handleOrderBook`, keeping
only the book state. -/
def processN (sd : Nat) (d : Delta) : Nat → OrderBook → OrderBook
  | 0, book => book
  | n + 1, book => processN sd d n (handleOrderBook sd book d).1

/-- JS `channel.split('_')` on the channel name's characters. -/
def splitUnderscore : List Char → List (List Char)
  | [] => [[]]
  | c :: rest =>
    let r := splitUnderscore rest
    if c = '_' then [] :: r
    else
      match r with
      | [] => [[c]]
      | y :: ys => (c :: y) :: ys

/-- JS `hay.indexOf(needle) > -1`: the needle occurs somewhere in the
haystack. -/
def containsSub (needle : List Char) : List Char → Bool
  | [] => needle.isEmpty
  | c :: rest => needle.isPrefixOf (c :: rest) || containsSub needle rest

/-- `this.safeString(parts, 3)` on the underscore-split channel name: the
market id component of an order-book channel such as
`diff_order_book_btcusd`. -/
def channelMarketId (channel : List Char) : List Char :=
  (splitUnderscore channel).getD 3 []

/-- `this.orderbooks[symbol] = book` on the per-symbol stored books,
embedded as an association list. -/
def setBook : List (List Char × OrderBook) → List Char → OrderBook →
    List (List Char × OrderBook)
  | [], s, b => [(s, b)]
  | (s', b') :: rest, s, b =>
    if s' = s then (s, b) :: rest else (s', b') :: setBook rest s b

/-- `this.safeValue(this.orderbooks, symbol)`. -/
def getBook : List (List Char × OrderBook) → List Char → Option OrderBook
  | [], _ => none
  | (s', b') :: rest, s => if s' = s then some b' else getBook rest s

/-- `handleOrderBookSubscription(client, message)`: extract the market id
from the channel, map it to a unified symbol through the base-class
`safeSymbol` (an external collaborator, passed as a function), and replace
that symbol's stored book with a fresh empty one. -/
def handleOrderBookSubscription (safeSymbol : List Char → List Char)
    (books : List (List Char × OrderBook)) (channel : List Char) :
    List (List Char × OrderBook) :=
  setBook books (safeSymbol (channelMarketId channel)) freshOrderBook

/-- `handleSubscriptionStatus(client, message)`: only channels whose name
contains `order_book` reset a stored book. -/
def handleSubscriptionStatus (safeSymbol : List Char → List Char)
    (books : List (List Char × OrderBook)) (channel : List Char) :
    List (List Char × OrderBook) :=
  if containsSub ("order_book".toList) channel then
    handleOrderBookSubscription safeSymbol books channel
  else books

/-- An incoming WebSocket message's routing fields. -/
structure WsMsg where
  event : List Char
  channel : List Char

/-- `handleMessage(client, message)` restricted to its effect on the
stored order books: `bts:subscription_succeeded` events are routed to
`handleSubscriptionStatus`; the `handleSubject` data path for
`diff_order_book` channels is embedded separately as `handleOrderBook`. -/
def handleMessage (safeSymbol : List Char → List Char)
    (books : List (List Char × OrderBook)) (m : WsMsg) :
    List (List Char × OrderBook) :=
  if m.event = "bts:subscription_succeeded".toList then
    handleSubscriptionStatus safeSymbol books m.channel
  else books

/-- Buffered delta carrying nonce 5 and no price levels. -/
def dN5 : Delta := ⟨none, 5, [], []⟩

/-- Buffered delta carrying nonce 6 and no price levels. -/
def dN6 : Delta := ⟨none, 6, [], []⟩

/-- Buffered delta carrying nonce 7 and no price levels. -/
def dN7 : Delta := ⟨none, 7, [], []⟩

/-- A live book holding bids `[[100,2]]`, asks `[[101,3]]` and nonce 10
(the snapshot state of spec Scenario 1). -/
def bookSnap : OrderBook :=
  { bids := [(100, 2)], asks := [(101, 3)], nonce := some 10,
    timestamp := none, datetime := none, cache := [] }

/-- Scenario 1 delta: nonce 11, single bid entry `[[100,0]]`. -/
def dScenario1 : Delta := ⟨none, 11, [(100, 0)], []⟩

/-- A live book used by the monotone-nonce and stale-delta witnesses:
nonce 10, one level per side. -/
def bookLive : OrderBook :=
  { bids := [(100, 2)], asks := [(101, 3)], nonce := some 10,
    timestamp := none, datetime := none, cache := [] }

/-- A stale delta for `bookLive`: its nonce 10 does not exceed the book's
nonce 10. -/
def dStale : Delta := ⟨some 1, 10, [(99, 1)], [(102, 1)]⟩

/-- Deltas fed to the live book for the monotone-nonce witness: nonces
11, 11 (stale), 9 (stale), 12. -/
def dsMono : List Delta :=
  [⟨none, 11, [], []⟩, ⟨none, 11, [], []⟩, ⟨none, 9, [], []⟩, ⟨none, 12, [], []⟩]

/-- A live book for the crossed-book claim: best bid 100, best ask 101,
nonce 10. -/
def bookCross : OrderBook :=
  { bids := [(100, 2)], asks := [(101, 3)], nonce := some 10,
    timestamp := none, datetime := none, cache := [] }

/-- A delta whose single bid entry at price 102 crosses `bookCross`'s best
ask 101. -/
def dCross : Delta := ⟨none, 11, [(102, 1)], []⟩

/-- A generic delta used for buffering runs. -/
def dBuf : Delta := ⟨some 1, 1, [(100, 1)], [(101, 1)]⟩

/-- An already-populated stored book to be discarded on resubscription. -/
def bookStaleState : OrderBook :=
  { bids := [(100, 2)], asks := [(101, 3)], nonce := some 10,
    timestamp := some 1000, datetime := some 1000, cache := [dN5] }

/-- A stored-books map holding the populated `btcusd` book. -/
def oldBooksSub : List (List Char × OrderBook) :=
  [("btcusd".toList, bookStaleState)]

/-- The order-book subscription acknowledgment message for `btcusd`. -/
def msgSub : WsMsg :=
  ⟨"bts:subscription_succeeded".toList, "diff_order_book_btcusd".toList⟩

/-- Every level of `storeBid side p s` is either the freshly stored level
`(p, s)` or one already present in `side`. -/
lemma storeBid_mem (p s : ℚ) : ∀ (side : List (ℚ × ℚ)) (x : ℚ × ℚ),
    x ∈ storeBid side p s → x = (p, s) ∨ x ∈ side := by
  intro side
  induction side with
  | nil =>
    intro x hx
    simp only [storeBid] at hx
    split_ifs at hx <;> simp_all
  | cons qt rest ih =>
    obtain ⟨q, t⟩ := qt
    intro x hx
    simp only [storeBid] at hx
    split_ifs at hx with h1 h2 h3 h4
    · exact Or.inr hx
    · rcases List.mem_cons.mp hx with rfl | hx
      · exact Or.inl rfl
      · exact Or.inr hx
    · exact Or.inr (List.mem_cons_of_mem _ hx)
    · rcases List.mem_cons.mp hx with rfl | hx
      · exact Or.inl rfl
      · exact Or.inr (List.mem_cons_of_mem _ hx)
    · rcases List.mem_cons.mp hx with rfl | hx
      · exact Or.inr (List.mem_cons_self _ _)
      · rcases ih x hx with h | h
        · exact Or.inl h
        · exact Or.inr (List.mem_cons_of_mem _ h)

/-- Mirror of `storeBid_mem` for the ask side. -/
lemma storeAsk_mem (p s : ℚ) : ∀ (side : List (ℚ × ℚ)) (x : ℚ × ℚ),
    x ∈ storeAsk side p s → x = (p, s) ∨ x ∈ side := by
  intro side
  induction side with
  | nil =>
    intro x hx
    simp only [storeAsk] at hx
    split_ifs at hx <;> simp_all
  | cons qt rest ih =>
    obtain ⟨q, t⟩ := qt
    intro x hx
    simp only [storeAsk] at hx
    split_ifs at hx with h1 h2 h3 h4
    · exact Or.inr hx
    · rcases List.mem_cons.mp hx with rfl | hx
      · exact Or.inl rfl
      · exact Or.inr hx
    · exact Or.inr (List.mem_cons_of_mem _ hx)
    · rcases List.mem_cons.mp hx with rfl | hx
      · exact Or.inl rfl
      · exact Or.inr (List.mem_cons_of_mem _ hx)
    · rcases List.mem_cons.mp hx with rfl | hx
      · exact Or.inr (List.mem_cons_self _ _)
      · rcases ih x hx with h | h
        · exact Or.inl h
        · exact Or.inr (List.mem_cons_of_mem _ h)

/-- `storeBid` preserves the strictly-descending-by-price invariant of the
bid side. -/
lemma storeBid_pairwise (p s : ℚ) : ∀ (side : List (ℚ × ℚ)),
    side.Pairwise (fun a b => b.1 < a.1) →
    (storeBid side p s).Pairwise (fun a b => b.1 < a.1) := by
  intro side
  induction side with
  | nil =>
    intro _
    simp only [storeBid]
    split_ifs <;> simp
  | cons qt rest ih =>
    obtain ⟨q, t⟩ := qt
    intro hs
    rw [List.pairwise_cons] at hs
    obtain ⟨hq, hrest⟩ := hs
    simp only [storeBid]
    split_ifs with h1 h2 h3 h4
    · exact List.pairwise_cons.mpr ⟨hq, hrest⟩
    · refine List.pairwise_cons.mpr ⟨?_, List.pairwise_cons.mpr ⟨hq, hrest⟩⟩
      intro x hx
      rcases List.mem_cons.mp hx with rfl | hx
      · exact h1
      · exact lt_trans (hq x hx) h1
    · exact hrest
    · refine List.pairwise_cons.mpr ⟨?_, hrest⟩
      intro x hx
      exact h3 ▸ hq x hx
    · refine List.pairwise_cons.mpr ⟨?_, ih hrest⟩
      intro x hx
      rcases storeBid_mem p s rest x hx with rfl | hx
      · exact lt_of_le_of_ne (not_lt.mp h1) h3
      · exact hq x hx

/-- `storeAsk` preserves the strictly-ascending-by-price invariant of the
ask side. -/
lemma storeAsk_pairwise (p s : ℚ) : ∀ (side : List (ℚ × ℚ)),
    side.Pairwise (fun a b => a.1 < b.1) →
    (storeAsk side p s).Pairwise (fun a b => a.1 < b.1) := by
  intro side
  induction side with
  | nil =>
    intro _
    simp only [storeAsk]
    split_ifs <;> simp
  | cons qt rest ih =>
    obtain ⟨q, t⟩ := qt
    intro hs
    rw [List.pairwise_cons] at hs
    obtain ⟨hq, hrest⟩ := hs
    simp only [storeAsk]
    split_ifs with h1 h2 h3 h4
    · exact List.pairwise_cons.mpr ⟨hq, hrest⟩
    · refine List.pairwise_cons.mpr ⟨?_, List.pairwise_cons.mpr ⟨hq, hrest⟩⟩
      intro x hx
      rcases List.mem_cons.mp hx with rfl | hx
      · exact h1
      · exact lt_trans h1 (hq x hx)
    · exact hrest
    · refine List.pairwise_cons.mpr ⟨?_, hrest⟩
      intro x hx
      exact h3 ▸ hq x hx
    · refine List.pairwise_cons.mpr ⟨?_, ih hrest⟩
      intro x hx
      rcases storeAsk_mem p s rest x hx with rfl | hx
      · exact lt_of_le_of_ne (not_lt.mp h1) (fun h => h3 h.symm)
      · exact hq x hx

/-- Applying a whole list of bid entries preserves the descending
invariant. -/
lemma handleBidAsksB_pairwise (entries : List (ℚ × ℚ)) :
    ∀ (side : List (ℚ × ℚ)), side.Pairwise (fun a b => b.1 < a.1) →
    (handleBidAsksB side entries).Pairwise (fun a b => b.1 < a.1) := by
  induction entries with
  | nil => intro side h; exact h
  | cons e es ih =>
    intro side h
    exact ih (storeBid side e.1 e.2) (storeBid_pairwise e.1 e.2 side h)

/-- Applying a whole list of ask entries preserves the ascending
invariant. -/
lemma handleBidAsksA_pairwise (entries : List (ℚ × ℚ)) :
    ∀ (side : List (ℚ × ℚ)), side.Pairwise (fun a b => a.1 < b.1) →
    (handleBidAsksA side entries).Pairwise (fun a b => a.1 < b.1) := by
  induction entries with
  | nil => intro side h; exact h
  | cons e es ih =>
    intro side h
    exact ih (storeAsk side e.1 e.2) (storeAsk_pairwise e.1 e.2 side h)

/-- When the buffered nonces are strictly increasing and the snapshot
nonce either occurs among them or dominates them all, dropping
`cacheIndexLoop` many deltas is the same as keeping exactly the deltas
with nonce strictly above the snapshot nonce. -/
lemma drop_cacheIndexLoop_eq_filter : ∀ (deltas : List Delta) (n : Nat),
    deltas.Pairwise (fun a b => a.microtimestamp < b.microtimestamp) →
    (n ∈ deltas.map (fun d => d.microtimestamp) ∨
      ∀ d ∈ deltas, d.microtimestamp ≤ n) →
    deltas.drop (cacheIndexLoop n deltas) =
      deltas.filter (fun d => n < d.microtimestamp) := by
  intro deltas
  induction deltas with
  | nil => intro n _ _; simp [cacheIndexLoop]
  | cons d rest ih =>
    intro n hpw hdisj
    rw [List.pairwise_cons] at hpw
    obtain ⟨hd, hrest⟩ := hpw
    by_cases hdn : d.microtimestamp = n
    · have hloop : cacheIndexLoop n (d :: rest) = 1 := by
        simp [cacheIndexLoop, hdn]
      rw [hloop]
      have hfr : rest.filter (fun d => n < d.microtimestamp) = rest :=
        List.filter_eq_self.mpr (fun x hx => by
          simpa using hdn ▸ hd x hx)
      simp [List.filter_cons, hdn, hfr]
    · have hloop : cacheIndexLoop n (d :: rest) = 1 + cacheIndexLoop n rest := by
        simp [cacheIndexLoop, hdn]
      have hlt : d.microtimestamp < n := by
        rcases hdisj with hmem | hall
        · rcases List.mem_map.mp hmem with ⟨e, he, hemts⟩
          rcases List.mem_cons.mp he with rfl | he
          · exact absurd hemts hdn
          · exact hemts ▸ hd e he
        · exact lt_of_le_of_ne (hall d (List.mem_cons_self d rest)) hdn
      have hdisj' : n ∈ rest.map (fun d => d.microtimestamp) ∨
          ∀ d ∈ rest, d.microtimestamp ≤ n := by
        rcases hdisj with hmem | hall
        · left
          rcases List.mem_map.mp hmem with ⟨e, he, hemts⟩
          rcases List.mem_cons.mp he with rfl | he
          · exact absurd hemts hdn
          · exact List.mem_map.mpr ⟨e, he, hemts⟩
        · exact Or.inr (fun e he => hall e (List.mem_cons_of_mem d he))
      rw [hloop, Nat.add_comm, List.drop_succ_cons, ih n hrest hdisj']
      have : ¬ n < d.microtimestamp := not_lt.mpr (le_of_lt hlt)
      simp [List.filter_cons, this]

/-- On a live book every run of deltas yields strictly increasing resolved
nonces, all above the starting nonce. -/
lemma resolvedNonces_chain (sd : Nat) : ∀ (ds : List Delta) (book : OrderBook)
    (n₀ : Nat), book.nonce = some n₀ →
    List.Chain' (· < ·) (n₀ :: resolvedNonces sd book ds) := by
  intro ds
  induction ds with
  | nil => intro book n₀ _; simp [resolvedNonces]
  | cons d ds ih =>
    intro book n₀ h
    by_cases hle : d.microtimestamp ≤ n₀
    · have hb : handleOrderBook sd book d = (book, .stale) := by
        simp [handleOrderBook, h, hle]
      simpa [resolvedNonces, hb] using ih book n₀ h
    · have hb : handleOrderBook sd book d = (handleDelta book d, .resolved) := by
        simp [handleOrderBook, h, hle]
      have hn' : (handleDelta book d).nonce = some d.microtimestamp := rfl
      have hchain := ih (handleDelta book d) d.microtimestamp hn'
      simp only [resolvedNonces, hb]
      exact List.chain'_cons.mpr ⟨not_le.mp hle, hchain⟩

/-- While the book is still buffering, `processN` appends one delta per
step and the nonce stays undefined. -/
lemma processN_buffering (sd : Nat) (d : Delta) : ∀ (n : Nat) (book : OrderBook),
    book.nonce = none →
    (processN sd d n book).cache.length = book.cache.length + n ∧
    (processN sd d n book).nonce = none := by
  intro n
  induction n with
  | zero => intro book h; exact ⟨rfl, h⟩
  | succ n ih =>
    intro book h
    have hb : handleOrderBook sd book d =
        ({ book with cache := book.cache ++ [d] },
          .buffered (book.cache.length == sd)) := by
      simp [handleOrderBook, h]
    have hih := ih { book with cache := book.cache ++ [d] } h
    constructor
    · have hlen := hih.1
      simp only [List.length_append, List.length_cons, List.length_nil] at hlen
      show (processN sd d n (handleOrderBook sd book d).1).cache.length = _
      rw [hb]
      dsimp only
      omega
    · show (processN sd d n (handleOrderBook sd book d).1).nonce = none
      rw [hb]
      exact hih.2

/-- Updating a symbol's stored book makes it the one returned for that
symbol. -/
lemma getBook_setBook : ∀ (books : List (List Char × OrderBook))
    (s : List Char) (b : OrderBook), getBook (setBook books s b) s = some b := by
  intro books s b
  induction books with
  | nil => simp [setBook, getBook]
  | cons sb rest ih =>
    obtain ⟨s', b'⟩ := sb
    by_cases hs : s' = s
    · simp [setBook, getBook, hs]
    · simp [setBook, getBook, hs, ih]

/-- C1 (amended): for a non-empty buffer whose nonces are strictly
increasing, with the snapshot nonce at least the first buffered nonce,
reconcile selects exactly the deltas with nonce strictly above the
snapshot nonce provided the snapshot nonce occurs among the buffered
nonces or is at least all of them; in particular, for buffered nonces
5,6,7 and snapshot nonce 6, only the nonce-7 delta is replayed. -/
theorem C1_reconcile_replays_strictly_greater (first : Delta)
    (rest : List Delta) (n : Nat)
    (hpw : (first :: rest).Pairwise
      (fun a b => a.microtimestamp < b.microtimestamp))
    (hfirst : first.microtimestamp ≤ n)
    (hdisj : n ∈ (first :: rest).map (fun d => d.microtimestamp) ∨
      ∀ d ∈ first :: rest, d.microtimestamp ≤ n) :
    reconcile n (first :: rest) =
      some ((first :: rest).filter (fun d => n < d.microtimestamp)) := by
  have hidx : getCacheIndex n (first :: rest) =
      (cacheIndexLoop n (first :: rest) : Int) := by
    simp [getCacheIndex, not_lt.mpr hfirst]
  simp only [reconcile, hidx]
  have h1 : ¬ ((cacheIndexLoop n (first :: rest) : Int) = -1) := by omega
  rw [if_neg h1, Int.toNat_natCast,
    drop_cacheIndexLoop_eq_filter (first :: rest) n hpw hdisj]

/-- C1 counterexample: with buffered nonces 5 and 7 and snapshot nonce 6
(which is at least the first buffered nonce 5), reconcile replays nothing,
not the sub-sequence of deltas with nonce strictly greater than 6. -/
theorem C1_counterexample :
    dN5.microtimestamp ≤ 6 ∧
    reconcile 6 [dN5, dN7] = some [] ∧
    [dN5, dN7].filter (fun d => 6 < d.microtimestamp) = [dN7] ∧
    reconcile 6 [dN5, dN7] ≠
      some ([dN5, dN7].filter (fun d => 6 < d.microtimestamp)) := by
  decide

/-- C1 witness: buffered nonces 5,6,7 and snapshot nonce 6 replay exactly
the nonce-7 delta. -/
theorem C1_witness : reconcile 6 [dN5, dN6, dN7] = some [dN7] := by
  have h := C1_reconcile_replays_strictly_greater dN5 [dN6, dN7] 6
    (by decide) (by decide) (by decide)
  rw [h]
  decide

/-- C2 (amended): for every non-empty buffer, reconcile reports the
unrecoverable-gap failure result exactly when the first buffered delta's
nonce is strictly greater than the snapshot nonce; in particular a first
nonce equal to the snapshot nonce plus 1 already yields the failure
result, not a replay list. -/
theorem C2_fail_iff_first_above_snapshot (first : Delta) (rest : List Delta)
    (n : Nat) :
    reconcile n (first :: rest) = none ↔ n < first.microtimestamp := by
  by_cases h : n < first.microtimestamp
  · simp [reconcile, getCacheIndex, h]
  · have hidx : getCacheIndex n (first :: rest) =
        (cacheIndexLoop n (first :: rest) : Int) := by
      simp [getCacheIndex, h]
    simp only [reconcile, hidx]
    have h1 : ¬ ((cacheIndexLoop n (first :: rest) : Int) = -1) := by omega
    simp [h1, h]

/-- C2 counterexample: a buffer whose first delta's nonce is 7, exactly
the snapshot nonce 6 plus 1, gets the failure result from reconcile, not
a replay list. -/
theorem C2_counterexample :
    dN7.microtimestamp = 6 + 1 ∧ reconcile 6 [dN7] = none := by decide

/-- C3: on a book whose nonce is defined, the nonces of the successive
resolved book views produced by `handleOrderBook` over any delta sequence
are non-decreasing. -/
theorem C3_resolved_nonces_nondecreasing (sd n₀ : Nat) (book : OrderBook)
    (ds : List Delta) (h : book.nonce = some n₀) :
    List.Chain' (· ≤ ·) (resolvedNonces sd book ds) :=
  (resolvedNonces_chain sd ds book n₀ h).tail.imp
    (fun _ _ hab => le_of_lt hab)

/-- C3 witness: a live book with nonce 10 fed nonces 11, 11, 9, 12. -/
theorem C3_witness : List.Chain' (· ≤ ·) (resolvedNonces 6 bookLive dsMono) :=
  C3_resolved_nonces_nondecreasing 6 10 bookLive dsMono rfl

/-- C4: a delta whose nonce does not exceed a live book's nonce is
rejected: the book is returned unchanged in every field and the call
reports the stale outcome instead of resolving to consumers. -/
theorem C4_stale_delta_rejected (sd n : Nat) (book : OrderBook) (d : Delta)
    (h1 : book.nonce = some n) (h2 : d.microtimestamp ≤ n) :
    handleOrderBook sd book d = (book, .stale) := by
  simp [handleOrderBook, h1, h2]

/-- C4 witness: the live book with nonce 10 drops a nonce-10 delta
unchanged. -/
theorem C4_witness : handleOrderBook 6 bookLive dStale = (bookLive, .stale) :=
  C4_stale_delta_rejected 6 10 bookLive dStale rfl (by decide)

/-- C5: every sequence of upserts on an empty side leaves the bid side
strictly descending by price and the ask side strictly ascending, with no
duplicate prices on either side. -/
theorem C5_sides_sorted_no_duplicates (entries : List (ℚ × ℚ)) :
    (handleBidAsksB [] entries).Pairwise (fun a b => b.1 < a.1) ∧
    ((handleBidAsksB [] entries).map Prod.fst).Nodup ∧
    (handleBidAsksA [] entries).Pairwise (fun a b => a.1 < b.1) ∧
    ((handleBidAsksA [] entries).map Prod.fst).Nodup := by
  have hb := handleBidAsksB_pairwise entries [] List.Pairwise.nil
  have ha := handleBidAsksA_pairwise entries [] List.Pairwise.nil
  refine ⟨hb, ?_, ha, ?_⟩
  · exact hb.map Prod.fst (fun a b hab => ne_of_gt hab)
  · exact ha.map Prod.fst (fun a b hab => ne_of_lt hab)

/-- C6 (amended): applying a delta batch to a live book performs no
crossed-book verification: every delta with a fresh nonce is applied by
`handleDelta` and resolved to consumers unconditionally, even when the
result has best bid at or above best ask; no error is raised and the book
is not auto-corrected. -/
theorem C6_delta_applied_without_crossed_check (sd n : Nat)
    (book : OrderBook) (d : Delta) (h1 : book.nonce = some n)
    (h2 : n < d.microtimestamp) :
    handleOrderBook sd book d = (handleDelta book d, .resolved) := by
  simp [handleOrderBook, h1, not_le.mpr h2]

/-- C6 witness: the crossing delta (bid 102 against best ask 101) is
applied and resolved like any other. -/
theorem C6_witness : handleOrderBook 6 bookCross dCross =
    (handleDelta bookCross dCross, .resolved) :=
  C6_delta_applied_without_crossed_check 6 10 bookCross dCross rfl (by decide)

/-- C6 counterexample: a delta placing a bid at 102 on a book with best
ask 101 is applied and resolved with best bid 102 at or above best ask
101, and no CrossedBook error exists in the outcome. -/
theorem C6_counterexample :
    (handleOrderBook 6 bookCross dCross).2 = .resolved ∧
    bestBid (handleOrderBook 6 bookCross dCross).1 = some 102 ∧
    bestAsk (handleOrderBook 6 bookCross dCross).1 = some 101 ∧
    ¬ ((102 : ℚ) < 101) := by decide

/-- C7 (amended): while no snapshot has been applied, the call processing
the i-th delta (0-based, i prior pushes) spawns the snapshot fetch exactly
when i equals snapshotDelay — i.e. the fetch is triggered by the delta
that finds the buffer already holding snapshotDelay deltas, the
(snapshotDelay+1)-th push, and at most once per buffering phase. -/
theorem C7_spawn_exactly_when_cache_holds_delay (sd : Nat) :
    ∀ (ds : List Delta) (book : OrderBook), book.nonce = none →
    spawnFlags sd book ds =
      (List.range ds.length).map (fun i => book.cache.length + i == sd) := by
  intro ds
  induction ds with
  | nil => intro book _; simp [spawnFlags]
  | cons d ds ih =>
    intro book h
    have hb : handleOrderBook sd book d =
        ({ book with cache := book.cache ++ [d] },
          .buffered (book.cache.length == sd)) := by
      simp [handleOrderBook, h]
    have hih := ih { book with cache := book.cache ++ [d] } h
    simp only [spawnFlags, hb]
    rw [hih, List.length_cons, List.range_succ_eq_map, List.map_cons,
      List.map_map]
    congr 1
    apply List.map_congr_left
    intro i _
    simp only [Function.comp_apply, List.length_append, List.length_cons,
      List.length_nil]
    congr 1
    omega

/-- C7 witness: from a fresh book with snapshotDelay 6, a run of eight
deltas spawns the fetch exactly on the seventh. -/
theorem C7_witness :
    spawnFlags 6 freshOrderBook (List.replicate 8 dBuf) =
      [false, false, false, false, false, false, true, false] := by
  have h := C7_spawn_exactly_when_cache_holds_delay 6
    (List.replicate 8 dBuf) freshOrderBook rfl
  rw [h]
  decide

/-- C7 counterexample: with snapshotDelay 6, buffering six deltas — the
sixth of which makes the buffered count reach 6 — spawns no snapshot
fetch at all; the fetch only fires on a seventh delta. -/
theorem C7_counterexample :
    spawnFlags 6 freshOrderBook (List.replicate 6 dBuf) =
      [false, false, false, false, false, false] ∧
    (processN 6 dBuf 6 freshOrderBook).cache.length = 6 ∧
    spawnFlags 6 freshOrderBook (List.replicate 7 dBuf) =
      [false, false, false, false, false, false, true] := by decide

/-- C8: from the Scenario 1 snapshot book (bids `[[100,2]]`, asks
`[[101,3]]`, nonce 10), the nonce-11 delta `{bids:[[100,0]]}` yields empty
bids, unchanged asks and nonce 11, and resolves. -/
theorem C8_scenario1_zero_size_deletes :
    handleOrderBook 6 bookSnap dScenario1 =
      ({ bids := [], asks := [(101, 3)], nonce := some 11, timestamp := none,
         datetime := none, cache := [] }, .resolved) := by decide

/-- C9 (amended): the per-market delta buffer is unbounded: while the
nonce is undefined every delta is appended, the cache grows by exactly one
per delta with no cap and no overflow condition — after n deltas the
length is the starting length plus n and the book is still buffering. -/
theorem C9_buffer_unbounded (sd n : Nat) (d : Delta) (book : OrderBook)
    (h : book.nonce = none) :
    (processN sd d n book).cache.length = book.cache.length + n ∧
    (processN sd d n book).nonce = none :=
  processN_buffering sd d n book h

/-- C9 witness: ten buffered deltas from a fresh book give cache length
ten and a still-undefined nonce. -/
theorem C9_witness :
    (processN 6 dBuf 10 freshOrderBook).cache.length =
      freshOrderBook.cache.length + 10 ∧
    (processN 6 dBuf 10 freshOrderBook).nonce = none :=
  C9_buffer_unbounded 6 10 dBuf freshOrderBook rfl

/-- C9 counterexample: no hard cap bounds the buffer — for every proposed
cap some run of buffered deltas exceeds it without any overflow condition
being raised. -/
theorem C9_counterexample :
    ¬ ∃ cap : Nat, ∀ n : Nat,
      (processN 6 dBuf n freshOrderBook).cache.length ≤ cap := by
  rintro ⟨cap, hcap⟩
  have h := (processN_buffering 6 dBuf (cap + 1) freshOrderBook rfl).1
  have h2 := hcap (cap + 1)
  rw [h] at h2
  simp [freshOrderBook] at h2

/-- C10: a `bts:subscription_succeeded` message whose channel contains
`order_book` replaces the stored book for the channel's market with a
fresh empty book whose nonce is undefined, and the next delta for that
book is buffered (the buffering phase restarts). -/
theorem C10_subscription_resets_book (safeSymbol : List Char → List Char)
    (sd : Nat) (books : List (List Char × OrderBook)) (m : WsMsg) (d : Delta)
    (h1 : m.event = "bts:subscription_succeeded".toList)
    (h2 : containsSub ("order_book".toList) m.channel = true) :
    getBook (handleMessage safeSymbol books m)
        (safeSymbol (channelMarketId m.channel)) = some freshOrderBook ∧
    freshOrderBook.nonce = none ∧
    handleOrderBook sd freshOrderBook d =
      ({ freshOrderBook with cache := [d] }, .buffered (0 == sd)) := by
  refine ⟨?_, rfl, rfl⟩
  unfold handleMessage
  rw [if_pos h1]
  unfold handleSubscriptionStatus
  rw [if_pos h2]
  unfold handleOrderBookSubscription
  exact getBook_setBook books _ freshOrderBook

/-- C10 witness: a subscription acknowledgment for
`diff_order_book_btcusd` wipes the populated stored book for `btcusd` and
the next delta is buffered. -/
theorem C10_witness :
    getBook (handleMessage (fun s => s) oldBooksSub msgSub)
        ((fun s : List Char => s) (channelMarketId msgSub.channel)) =
      some freshOrderBook ∧
    freshOrderBook.nonce = none ∧
    handleOrderBook 6 freshOrderBook dBuf =
      ({ freshOrderBook with cache := [dBuf] }, .buffered (0 == 6)) :=
  C10_subscription_resets_book (fun s => s) 6 oldBooksSub msgSub dBuf rfl
    (by decide)

end Bitstamp
